import Mathlib

/-!
Verification of the model-download/cache manager and the capture-analysis
debouncer of the multimodal app.

The development shallowly embeds:
  * `useModelDownload` (hooks/useModelDownload.ts): `getStoragePath`,
    `ensureDirectoryExists`, `downloadModel`, `getModelPath`;
  * `useScopedStorage` (utils/storage.ts);
  * the continuous-vision debouncer (components/VLM.tsx, history revision):
    `captureAndAnalyze`, `processAnalysisQueue`, `resetVLMContext`;
  * `createModelManager` (hooks/createModelManager.ts): `loadLM`, `releaseModel`.

External effects (expo-file-system, the download primitive, the inference
library, the camera) are modelled by explicit environments/oracles; the
mutable per-filename download map becomes an explicit trace of record
updates, and the single-threaded JS event loop becomes a step function on
an explicit state, with one event per atomic (synchronous) code segment.
-/

deriving instance DecidableEq for Except

/-- A JavaScript number as needed for the progress computation
`totalBytesWritten / totalBytesExpectedToWrite`: either an ordinary
(rational) value, or one of the special values NaN / Infinity / -Infinity
that arise from division when the expected total is zero. -/
inductive JSNum where
  | num (q : ℚ)
  | nan
  | inf
  | ninf
deriving DecidableEq, Repr

/-- JavaScript division `w / t` for `w : ℕ` bytes written and `t : ℤ` expected
bytes (expo reports `-1` when the content length is unknown): division by zero
yields NaN (for `0 / 0`) or Infinity (for `w / 0`, `w > 0`); otherwise the
exact rational value. -/
def jsDiv (w : ℕ) (t : ℤ) : JSNum :=
  if t = 0 then (if w = 0 then .nan else .inf)
  else .num ((w : ℚ) / (t : ℚ))

/-- The result object of `FileSystem.getInfoAsync`: the `exists` field
(named `present` here because `exists` is reserved in Lean) and the `size`
field. -/
structure FileInfo where
  present : Bool
  size : ℕ
deriving DecidableEq, Repr

/-- The filesystem contents: the set of paths that exist, each with its size
(directories are entries of size 0). -/
structure FS where
  entries : List (String × ℕ)
deriving DecidableEq, Repr

/-- What `getInfoAsync` reports for a path: `{exists := true, size := n}` when
the path has an entry, `{exists := false, size := 0}` otherwise. -/
def FS.info (fs : FS) (p : String) : FileInfo :=
  match fs.entries.lookup p with
  | some n => ⟨true, n⟩
  | none => ⟨false, 0⟩

/-- Create a directory entry (used by `makeDirectoryAsync`). -/
def FS.mkdir (fs : FS) (p : String) : FS :=
  ⟨(p, 0) :: fs.entries⟩

/-- Write (or overwrite) a file of size `n` at path `p`. -/
def FS.setFile (fs : FS) (p : String) (n : ℕ) : FS :=
  ⟨(p, n) :: fs.entries⟩

/-- The per-filename record stored in the `downloads` map of
`useModelDownload`: `progress`, `isDownloading`, `error`. -/
structure DownloadProgress where
  progress : JSNum
  isDownloading : Bool
  error : Option String
deriving DecidableEq, Repr

/-- The outcome object of `downloadResumable.downloadAsync()` when it
resolves: the HTTP `status` and the size of the file it left at the target
path. -/
structure DLRes where
  status : ℕ
  written : ℕ
deriving DecidableEq, Repr

/-- The environment (oracle) for one `downloadModel` call: the outcome of
`checkAndroidVersion`, whether the `useScopedStorage()` call itself throws
(caught inside `getStoragePath`), the platform document directory, the
filesystem, which paths make `getInfoAsync` throw (with what message),
whether `makeDirectoryAsync` inside `useScopedStorage` throws, the outcome
of `downloadAsync` (a thrown message, an undefined result, or a resolved
result), and the sequence of progress callbacks, each a pair
(totalBytesWritten, totalBytesExpectedToWrite). -/
structure DLEnv where
  newAndroid : Bool
  scopedThrows : Bool
  documentDirectory : String
  fs : FS
  infoErrors : List (String × String)
  mkdirError : Option String
  dl : Except String (Option DLRes)
  progressEvents : List (ℕ × ℤ)
deriving DecidableEq, Repr

/-- `FileSystem.getInfoAsync` in environment `env` on filesystem `fs`:
throws for paths listed in `env.infoErrors`, otherwise reports `fs.info`. -/
def getInfoA (env : DLEnv) (fs : FS) (p : String) : Except String FileInfo :=
  match env.infoErrors.lookup p with
  | some e => .error e
  | none => .ok (fs.info p)

/-- `useScopedStorage` (utils/storage.ts): computes the models directory
`documentDirectory ++ "models/"`, ensures it exists (creating it when the
existence check reports absent), and returns it; any error is caught and
`null` (here `none`) is returned. Returns the possibly updated filesystem. -/
def useScopedStorage (env : DLEnv) (fs : FS) : FS × Option String :=
  let models := env.documentDirectory ++ "models/"
  match getInfoA env fs models with
  | .error _ => (fs, none)
  | .ok info =>
    if !info.present then
      match env.mkdirError with
      | some _ => (fs, none)
      | none => (fs.mkdir models, some models)
    else (fs, some models)

/-- `getStoragePath` of `useModelDownload`: on new-enough Android, try
scoped storage (a throw from `useScopedStorage` is caught and falls
through); when it yields a models directory, the path is that directory
followed by the filename; otherwise fall back to
`documentDirectory ++ filename`. -/
def getStoragePath (env : DLEnv) (fs : FS) (filename : String) : String × FS :=
  if env.newAndroid then
    if env.scopedThrows then (env.documentDirectory ++ filename, fs)
    else
      match useScopedStorage env fs with
      | (fs1, some models) => (models ++ filename, fs1)
      | (fs1, none) => (env.documentDirectory ++ filename, fs1)
  else (env.documentDirectory ++ filename, fs)

/-- `filePath.substring(0, filePath.lastIndexOf("/"))`: the prefix of the
path before its last slash (empty when the path has no slash, matching the
JavaScript clamp of `substring(0, -1)`). -/
def dirOfPath (filePath : String) : String :=
  let parts := filePath.splitOn ("/")
  if parts.length ≤ 1 then ("")
  else String.intercalate ("/") parts.dropLast

/-- In the source, the result of `getInfoAsync(directory)` is bound to a
variable named `exists` and tested with `if (!exists)`. `getInfoAsync`
resolves to an info object whenever it does not throw, and a JavaScript
object is always truthy, so this test is constantly true and its negation
constantly false. -/
def jsTruthyObject : FileInfo → Bool := fun _ => true

/-- `ensureDirectoryExists` of `useModelDownload`: computes the parent
directory, queries `getInfoAsync`, and creates the directory when the
truthiness test `!exists` succeeds (it never does, see `jsTruthyObject`);
any thrown error is caught and logged (non-fatal). Returns the (possibly
updated) filesystem and the list of directories created. -/
def ensureDirectoryExists (env : DLEnv) (fs : FS) (filePath : String) :
    FS × List String :=
  let directory := dirOfPath filePath
  match getInfoA env fs directory with
  | .error _ => (fs, [])
  | .ok info =>
    if !jsTruthyObject info then (fs.mkdir directory, [directory])
    else (fs, [])

/-- The error message thrown for a non-success download result:
`` `Download failed with status: ${result?.status}` `` (the template prints
`undefined` when the result object is undefined). -/
def statusMsg (s : Option ℕ) : String :=
  ("Download failed with status: ") ++ (match s with
    | some n => toString n
    | none => ("undefined"))

/-- The outcome of one `downloadModel` call: the settled promise (rejection
message or returned path), the ordered trace of updates written to the
filename's record in the `downloads` map, the number of `downloadAsync`
invocations (network transfers started), the filesystem afterwards, and the
directories created along the way. -/
structure DLOut where
  result : Except String String
  updates : List DownloadProgress
  networkCalls : ℕ
  fs : FS
  created : List String
deriving DecidableEq, Repr

/-- The preparation phase of `downloadModel`: resolve the storage path and
run `ensureDirectoryExists` on it. -/
structure Prep where
  path : String
  fs : FS
  created : List String
deriving DecidableEq, Repr

/-- Path resolution followed by `ensureDirectoryExists`, as performed at the
start of `downloadModel`. -/
def prepare (env : DLEnv) (filename : String) : Prep :=
  let (path, fs1) := getStoragePath env env.fs filename
  let (fs2, created) := ensureDirectoryExists env fs1 path
  ⟨path, fs2, created⟩

/-- `downloadModel(url, filename)` of `useModelDownload`: resolve the path,
ensure the directory, short-circuit when the file exists with positive size
(record `{progress 1, isDownloading false}`, no network call), otherwise
record `{progress 0, isDownloading true}`, invoke `downloadAsync` (each
progress callback writes `{progress w/t, isDownloading true}`), and settle:
status 200 resolves with the path and record `{1, false}`; any thrown error
or non-success status is caught, the record is set to
`{0, false, error message}`, and the error is rethrown. -/
def downloadModel (env : DLEnv) (url filename : String) : DLOut :=
  let p := prepare env filename
  match getInfoA env p.fs p.path with
  | .error e =>
      ⟨.error e, [⟨.num 0, false, some e⟩], 0, p.fs, p.created⟩
  | .ok info =>
    if info.present && decide (0 < info.size) then
      ⟨.ok p.path, [⟨.num 1, false, none⟩], 0, p.fs, p.created⟩
    else
      let cbUpds : List DownloadProgress :=
        env.progressEvents.map (fun wt => ⟨jsDiv wt.1 wt.2, true, none⟩)
      let started : List DownloadProgress := ⟨.num 0, true, none⟩ :: cbUpds
      match env.dl with
      | .error e =>
          ⟨.error e, started ++ [⟨.num 0, false, some e⟩], 1, p.fs, p.created⟩
      | .ok none =>
          let m := statusMsg none
          ⟨.error m, started ++ [⟨.num 0, false, some m⟩], 1, p.fs, p.created⟩
      | .ok (some res) =>
          if res.status = 200 then
            ⟨.ok p.path, started ++ [⟨.num 1, false, none⟩], 1,
              p.fs.setFile p.path res.written, p.created⟩
          else
            let m := statusMsg (some res.status)
            ⟨.error m, started ++ [⟨.num 0, false, some m⟩], 1, p.fs, p.created⟩

/-- `getModelPath(filename)` of `useModelDownload`: resolve the path and
return it when `getInfoAsync` reports `exists` — the size is not consulted;
a thrown error is caught and `null` returned. -/
def getModelPath (env : DLEnv) (filename : String) : Option String :=
  let (path, fs1) := getStoragePath env env.fs filename
  match getInfoA env fs1 path with
  | .error _ => none
  | .ok info => if info.present then some path else none

/-! ## The capture/analysis debouncer (components/VLM.tsx, history revision)

Frames are identified by natural numbers. The JavaScript event loop is
modelled as a step function over an explicit state; each event corresponds
to one synchronous segment of the source:

  * `capStart f`: a call of `captureAndAnalyze` for the frame `f` the camera
    will deliver — the guard `!cameraRef.current || !vlm ||
    isProcessingRef.current` runs, and when it passes the call suspends on
    `takePictureAsync` (recorded in `pending`);
  * `capFail`: the oldest suspended capture rejects (caught and logged);
  * `capPush`: the oldest suspended capture resolves — the frame is pushed
    onto `analysisQueueRef` and `processAnalysisQueue` is invoked, whose
    synchronous prefix (busy/empty check, set flags, pop the latest, clear
    the queue, null-checks) runs in the same segment;
  * `drainOk stream resText`: the awaited body of `processAnalysisQueue`
    completes — the final text is computed, `setCurrentAnalysis` runs, the
    history gains an entry, the temp file is deleted, and the `finally`
    clears the flags;
  * `drainFail msg`: the awaited body throws — the catch calls
    `resetVLMContext` (which nulls the session and starts
    `initializeVLM`), and the `finally` clears the flags;
  * `reinitDone`: the `initializeVLM` started by `resetVLMContext`
    completes and the session is recreated. -/

/-- The mutable state of the vision component that the debouncer touches:
the captures suspended on `takePictureAsync` (`pending`), the
`analysisQueueRef` backlog (`queue`), `isProcessingRef` (`busy`),
`isAnalyzing` (`analyzing`), whether the `vlm` session is non-null (`vlm`),
the analyses currently in flight (`inflight`), the log of analyses ever
started (`started`), the history list (newest first), `currentAnalysis`
(`current`), and the number of `resetVLMContext` reinitializations
(`resets`). -/
structure QState where
  pending : List ℕ
  queue : List ℕ
  busy : Bool
  analyzing : Bool
  vlm : Bool
  inflight : List ℕ
  started : List ℕ
  history : List String
  current : String
  resets : ℕ
deriving DecidableEq, Repr

/-- The component state right after a successful `initializeVLM`. -/
def initialQState : QState :=
  ⟨[], [], false, false, true, [], [], [], (""), 0⟩

/-- The synchronous prefix of `processAnalysisQueue`: return immediately if
`isProcessingRef.current` or the queue is empty; otherwise set
`isProcessingRef` and `isAnalyzing`, pop the most recently enqueued image,
discard the rest of the queue (`analysisQueueRef.current = []`), and — if
the popped value or the session is null — reset the flags and return;
otherwise the analysis of the popped frame is now in flight. (The source
sets both flags before the null-checks and resets them in the null
branches; here each branch carries the net flag effect.) -/
def processAnalysisQueueStart (s : QState) : QState :=
  if s.busy || s.queue.isEmpty then s
  else
    match s.queue.getLast? with
    | none => { s with queue := [], busy := false, analyzing := false }
    | some f =>
      if s.vlm then
        { s with queue := [], busy := true, analyzing := true,
                 inflight := [f], started := s.started ++ [f] }
      else
        { s with queue := [], busy := false, analyzing := false }

/-- How one completed drain body settles: either the copy/inference/result
handling all succeeded, yielding the accumulated token stream and the
optional `result.text`, or some step in the `try` block threw. -/
inductive DrainOutcome where
  | ok (stream : String) (resText : Option String)
  | err (msg : String)
deriving DecidableEq, Repr

/-- The raw final text:
`analysisResponse.trim() || result.text?.trim() || "Analysis completed but
no text returned"` (an empty string is falsy, an undefined `result.text`
is falsy). -/
def rawTextOf (stream : String) (resText : Option String) : String :=
  if stream.trim ≠ ("") then stream.trim
  else
    match resText with
    | some t => if t.trim ≠ ("") then t.trim
                else ("Analysis completed but no text returned")
    | none => ("Analysis completed but no text returned")

/-- Modelled from the spec: `cleanText` (utils/text.ts) is imported by the
vision component but its source is not in the repository snapshot; the spec
only requires the finalized text to be appended trimmed, so it is modelled
as trimming. -/
def cleanText (s : String) : String := s.trim

/-- The completion of the awaited body of `processAnalysisQueue` for the
analysis in flight, together with what the surrounding `try`/`catch`
propagates to the caller (`none` — the catch swallows the error): on
success `setCurrentAnalysis(finalText)` runs and the history gains one
entry; on failure `resetVLMContext` nulls the session (when non-null) and
starts a reinitialization; the `finally` clears both flags either way. -/
def processAnalysisQueueFinish (s : QState) (o : DrainOutcome) :
    QState × Option String :=
  match s.inflight with
  | [_] =>
    match o with
    | .ok stream resText =>
        let finalText := cleanText (rawTextOf stream resText)
        ({ s with inflight := [], current := finalText,
                  history := finalText :: s.history,
                  busy := false, analyzing := false }, none)
    | .err _ =>
        (if s.vlm then
          { s with vlm := false, resets := s.resets + 1,
                   inflight := [], busy := false, analyzing := false }
        else { s with inflight := [], busy := false, analyzing := false },
        none)
  | _ => (s, none)

/-- The atomic events of the debouncer (one per synchronous segment of the
source, see the section header). -/
inductive Ev where
  | capStart (f : ℕ)
  | capFail
  | capPush
  | drainOk (stream : String) (resText : Option String)
  | drainFail (msg : String)
  | reinitDone
deriving DecidableEq, Repr

/-- One step of the event loop. `capStart` models the guard at the top of
`captureAndAnalyze` (return early when busy or the session is null);
`capPush` models the resolution of `takePictureAsync`: the frame is pushed
and the synchronous prefix of `processAnalysisQueue` runs in the same
segment; `reinitDone` models the completion of the `initializeVLM` begun by
`resetVLMContext`, which also clears `currentAnalysis`. -/
def step (s : QState) (e : Ev) : QState :=
  match e with
  | .capStart f =>
      if s.busy || !s.vlm then s
      else { s with pending := s.pending ++ [f] }
  | .capFail => { s with pending := s.pending.tail }
  | .capPush =>
      match s.pending with
      | [] => s
      | f :: rest =>
          processAnalysisQueueStart
            { s with pending := rest, queue := s.queue ++ [f] }
  | .drainOk stream resText => (processAnalysisQueueFinish s (.ok stream resText)).1
  | .drainFail m => (processAnalysisQueueFinish s (.err m)).1
  | .reinitDone =>
      if !s.vlm then { s with vlm := true, current := ("") } else s

/-- Run the event loop from the initial state. -/
def evolve (evs : List Ev) : QState :=
  evs.foldl step initialQState

/-! ## The model manager (hooks/createModelManager.ts) -/

/-- The state owned by `createModelManager`: the map from model name to the
loaded session (sessions are identified by natural numbers), the number of
`CactusLM.init` invocations so far, and the sessions released. -/
structure MMState where
  models : List (String × ℕ)
  initCalls : ℕ
  releases : List ℕ
deriving DecidableEq, Repr

/-- The oracle for `CactusLM.init`: for each invocation (numbered by the
running `initCalls` count) and model path, either a thrown/returned error,
or `none` (no `lm` in the result), or the new session. -/
structure MMEnv where
  init : ℕ → String → Except String (Option ℕ)

/-- `loadLM(name, modelPath)`: return the cached session when the map has
the name; otherwise invoke `CactusLM.init` — a returned error is thrown, a
missing `lm` raises `"Failed to initialize CactusLM model."`, and a session
is stored in the map and returned. -/
def loadLM (env : MMEnv) (s : MMState) (name modelPath : String) :
    MMState × Except String ℕ :=
  match s.models.lookup name with
  | some lm => (s, .ok lm)
  | none =>
    match env.init s.initCalls modelPath with
    | .error e => ({ s with initCalls := s.initCalls + 1 }, .error e)
    | .ok none =>
        ({ s with initCalls := s.initCalls + 1 },
          .error ("Failed to initialize CactusLM model."))
    | .ok (some lm) =>
        ({ s with initCalls := s.initCalls + 1,
                  models := (name, lm) :: s.models }, .ok lm)

/-- `releaseModel(name)`: when the map has the name, release that session
and remove the entry; otherwise do nothing. -/
def releaseModel (s : MMState) (name : String) : MMState :=
  match s.models.lookup name with
  | some lm =>
      { s with models := s.models.filter (fun p => !(p.1 == name)),
               releases := s.releases ++ [lm] }
  | none => s

example :
    (downloadModel
      ⟨false, false, ("d/"), ⟨[]⟩, [], none, .ok (some ⟨200, 7⟩), []⟩
      ("u") ("a.gguf")).result = .ok ("d/a.gguf") := by decide

example :
    (downloadModel
      ⟨false, false, ("d/"), ⟨[(("d/a.gguf"), 5)]⟩, [], none,
        .ok (some ⟨200, 7⟩), []⟩
      ("u") ("a.gguf")).networkCalls = 0 := by decide

/-! ## Helper lemmas -/

theorem lookup_filter_out_key (l : List (String × ℕ)) (n : String) :
    (l.filter (fun p => !(p.1 == n))).lookup n = none := by
  induction l with
  | nil => simp [List.lookup]
  | cons hd tl ih =>
      by_cases h : hd.1 = n
      · simp [List.filter, h, ih]
      · have hb : (hd.1 == n) = false := beq_eq_false_iff_ne.mpr h
        have hb2 : (n == hd.1) = false := beq_eq_false_iff_ne.mpr (Ne.symm h)
        simp [List.filter, hb, hb2, List.lookup, ih]

/-- The invariant maintained by the debouncer: at most one analysis is in
flight, and none is in flight unless the busy flag is set. -/
def QInv (s : QState) : Prop :=
  s.inflight.length ≤ 1 ∧ (s.busy = false → s.inflight = [])

theorem qinv_initial : QInv initialQState := by
  constructor <;> simp [initialQState]

theorem qinv_start (s : QState) (h : QInv s) :
    QInv (processAnalysisQueueStart s) := by
  unfold processAnalysisQueueStart
  split
  · exact h
  · next hcond =>
      have hbusy : s.busy = false := by
        rcases Bool.or_eq_false_iff.mp (Bool.not_eq_true _ |>.mp hcond)
          with ⟨h1, _⟩
        exact h1
      have hinf : s.inflight = [] := h.2 hbusy
      split
      · constructor <;> simp [hinf]
      · split
        · constructor <;> simp
        · constructor <;> simp [hinf]

theorem qinv_finish (s : QState) (o : DrainOutcome) (h : QInv s) :
    QInv (processAnalysisQueueFinish s o).1 := by
  unfold processAnalysisQueueFinish
  split
  · cases o with
    | ok stream resText => constructor <;> simp
    | err m =>
        by_cases hv : s.vlm = true <;> simp [QInv, hv]
  · exact h

theorem qinv_step (s : QState) (e : Ev) (h : QInv s) : QInv (step s e) := by
  cases e with
  | capStart f =>
      simp only [step]; split
      · exact h
      · exact ⟨h.1, h.2⟩
  | capFail => exact ⟨h.1, h.2⟩
  | capPush =>
      simp only [step]
      rcases s.pending with _ | ⟨f, rest⟩
      · exact h
      · exact qinv_start _ ⟨h.1, h.2⟩
  | drainOk stream resText => exact qinv_finish s _ h
  | drainFail m => exact qinv_finish s _ h
  | reinitDone =>
      simp only [step]; split
      · exact ⟨h.1, h.2⟩
      · exact h

theorem qinv_foldl (evs : List Ev) :
    ∀ s : QState, QInv s → QInv (evs.foldl step s) := by
  induction evs with
  | nil => intro s h; exact h
  | cons e tl ih => intro s h; exact ih (step s e) (qinv_step s e h)

theorem qinv_evolve (evs : List Ev) : QInv (evolve evs) :=
  qinv_foldl evs initialQState qinv_initial

/-! ## Debouncer claims -/

/-- C3 counterexample: run three captures from idle; the first push starts
the drain on frame 1, the pushes of 2 and 3 land while busy, and when the
drain completes (the worker becomes free) the backlog is still `[2, 3]` —
it has not been collapsed to its last element. -/
theorem backlog_not_collapsed_on_free :
    (evolve [.capStart 1, .capStart 2, .capStart 3, .capPush, .capPush,
      .capPush, .drainOk ("r") none]).busy = false ∧
    (evolve [.capStart 1, .capStart 2, .capStart 3, .capPush, .capPush,
      .capPush, .drainOk ("r") none]).queue = [2, 3] ∧
    (evolve [.capStart 1, .capStart 2, .capStart 3, .capPush, .capPush,
      .capPush, .drainOk ("r") none]).queue ≠ [3] := by decide

/-- C3 (amended): at every reachable state at most one analysis is in
flight; a capture attempted while the worker is busy is rejected outright
(the guard in `captureAndAnalyze` returns early); a push that lands while
the worker is busy only extends the backlog and triggers no analysis; and
the backlog is collapsed — cleared, with only the most recently enqueued
frame going in flight — at the moment a drain next starts (triggered by
an enqueue from an idle worker), not when the worker becomes free. -/
theorem analysis_mutual_exclusion :
    (∀ evs : List Ev, (evolve evs).inflight.length ≤ 1)
    ∧ (∀ (s : QState) (f : ℕ), s.busy = true → step s (.capStart f) = s)
    ∧ (∀ (s : QState) (f : ℕ) (rest : List ℕ), s.busy = true →
        s.pending = f :: rest →
        step s .capPush = { s with pending := rest, queue := s.queue ++ [f] })
    ∧ (∀ (s : QState) (f : ℕ) (rest : List ℕ), s.busy = false → s.vlm = true →
        s.pending = f :: rest →
        (step s .capPush).queue = [] ∧ (step s .capPush).inflight = [f]) := by
  refine ⟨fun evs => (qinv_evolve evs).1, ?_, ?_, ?_⟩
  · intro s f hb
    simp [step, hb]
  · intro s f rest hb hp
    simp [step, hp, processAnalysisQueueStart, hb]
  · intro s f rest hb hv hp
    simp [step, hp, processAnalysisQueueStart, hb, hv]

theorem analysis_mutual_exclusion_witness :
    ((⟨[7], [], true, false, true, [4], [4], [], (""), 1⟩ : QState).busy
      = true) ∧
    step (⟨[7], [], true, false, true, [4], [4], [], (""), 1⟩ : QState)
        .capPush =
      { (⟨[7], [], true, false, true, [4], [4], [], (""), 1⟩ : QState) with
          pending := [], queue := [] ++ [7] } :=
  ⟨rfl, analysis_mutual_exclusion.2.2.1
    ⟨[7], [], true, false, true, [4], [4], [], (""), 1⟩ 7 [] rfl rfl⟩

/-- C2 counterexample: enqueuing frames 1, 2, 3 in rapid succession while
the worker is idle yields exactly one analysis — but it runs on frame 1,
not frame 3: the first enqueue's synchronous drain prefix claims its own
frame before frames 2 and 3 are pushed. -/
theorem first_enqueue_claims_first_frame :
    (evolve [.capStart 1, .capStart 2, .capStart 3, .capPush, .capPush,
      .capPush, .drainOk ("describe") none]).started = [1] ∧
    (evolve [.capStart 1, .capStart 2, .capStart 3, .capPush, .capPush,
      .capPush, .drainOk ("describe") none]).started ≠ [3] ∧
    (evolve [.capStart 1, .capStart 2, .capStart 3, .capPush, .capPush,
      .capPush, .drainOk ("describe") none]).history.length = 1 := by decide

/-- C2 (amended): when the drain starts it processes exactly the most
recently enqueued frame — the frame whose push triggered it, which is the
last element of the backlog — and unconditionally discards all older
backlog entries; enqueuing frames 1, 2, 3 in rapid succession while the
worker is idle results in exactly one analysis, on frame 1 (the first
enqueue starts the drain before the later frames land), and exactly one
new history entry. -/
theorem drain_processes_latest_only :
    (∀ (s : QState) (f : ℕ) (rest : List ℕ), s.busy = false → s.vlm = true →
      s.pending = f :: rest →
      (step s .capPush).inflight = [f] ∧
      (step s .capPush).started = s.started ++ [f] ∧
      (step s .capPush).queue = [] ∧
      (s.queue ++ [f]).getLast? = some f)
    ∧ (evolve [.capStart 1, .capStart 2, .capStart 3, .capPush, .capPush,
        .capPush, .drainOk ("describe") none]).started = [1]
    ∧ (evolve [.capStart 1, .capStart 2, .capStart 3, .capPush, .capPush,
        .capPush, .drainOk ("describe") none]).history.length = 1 := by
  refine ⟨?_, by decide, by decide⟩
  intro s f rest hb hv hp
  simp [step, hp, processAnalysisQueueStart, hb, hv]

theorem drain_processes_latest_only_witness :
    ((⟨[7], [5, 6], false, false, true, [], [9], [], (""), 0⟩ : QState).busy
      = false) ∧
    (step (⟨[7], [5, 6], false, false, true, [], [9], [], (""), 0⟩ : QState)
      .capPush).inflight = [7] ∧
    (step (⟨[7], [5, 6], false, false, true, [], [9], [], (""), 0⟩ : QState)
      .capPush).started = [9] ++ [7] ∧
    (step (⟨[7], [5, 6], false, false, true, [], [9], [], (""), 0⟩ : QState)
      .capPush).queue = [] ∧
    (([5, 6] : List ℕ) ++ [7]).getLast? = some 7 :=
  ⟨rfl,
    (drain_processes_latest_only.1
      ⟨[7], [5, 6], false, false, true, [], [9], [], (""), 0⟩ 7 [] rfl rfl
      rfl).1,
    (drain_processes_latest_only.1
      ⟨[7], [5, 6], false, false, true, [], [9], [], (""), 0⟩ 7 [] rfl rfl
      rfl).2.1,
    (drain_processes_latest_only.1
      ⟨[7], [5, 6], false, false, true, [], [9], [], (""), 0⟩ 7 [] rfl rfl
      rfl).2.2.1,
    (drain_processes_latest_only.1
      ⟨[7], [5, 6], false, false, true, [], [9], [], (""), 0⟩ 7 [] rfl rfl
      rfl).2.2.2⟩

/-- C6 counterexample: after the worker finishes a round with a backlog
gained while it was busy, the backlog `[2, 3]` is still queued, nothing is
in flight, and the `started` log still shows only the first analysis — the
drain cycle did not repeat when the busy flag was cleared. -/
theorem worker_free_no_redrain :
    (evolve [.capStart 1, .capStart 2, .capStart 3, .capPush, .capPush,
      .capPush, .drainOk ("t") none]).queue = [2, 3] ∧
    (evolve [.capStart 1, .capStart 2, .capStart 3, .capPush, .capPush,
      .capPush, .drainOk ("t") none]).inflight = [] ∧
    (evolve [.capStart 1, .capStart 2, .capStart 3, .capPush, .capPush,
      .capPush, .drainOk ("t") none]).busy = false ∧
    (evolve [.capStart 1, .capStart 2, .capStart 3, .capPush, .capPush,
      .capPush, .drainOk ("t") none]).started = [1] := by decide

/-- C6 (amended): finishing a round does not re-run the drain — no event
other than an enqueue's push ever starts an analysis, and completing a
round leaves the backlog untouched; the backlog waits until a subsequent
enqueue triggers the next drain, and any single drain starts at most one
analysis, namely on the most recently enqueued frame, so N frames enqueued
while busy still yield at most one analysis per subsequent drain. -/
theorem backlog_waits_for_next_enqueue :
    (∀ (s : QState) (e : Ev), e ≠ Ev.capPush → (step s e).started = s.started)
    ∧ (∀ (s : QState) (stream : String) (rt : Option String),
        (step s (.drainOk stream rt)).queue = s.queue)
    ∧ (∀ (s : QState) (m : String), (step s (.drainFail m)).queue = s.queue)
    ∧ (∀ s : QState, (step s .capPush).started.length ≤ s.started.length + 1)
    ∧ (∀ (s : QState) (f : ℕ) (rest : List ℕ), s.busy = false → s.vlm = true →
        s.pending = f :: rest →
        (step s .capPush).started = s.started ++ [f]) := by
  refine ⟨?_, ?_, ?_, ?_, ?_⟩
  · intro s e he
    cases e with
    | capStart f => simp only [step]; split <;> rfl
    | capFail => rfl
    | capPush => exact absurd rfl he
    | drainOk stream rt =>
        simp only [step, processAnalysisQueueFinish]
        split
        · simp
        · rfl
    | drainFail m =>
        simp only [step, processAnalysisQueueFinish]
        split
        · split <;> rfl
        · rfl
    | reinitDone => simp only [step]; split <;> rfl
  · intro s stream rt
    simp only [step, processAnalysisQueueFinish]
    split
    · simp
    · rfl
  · intro s m
    simp only [step, processAnalysisQueueFinish]
    split
    · split <;> rfl
    · rfl
  · intro s
    simp only [step]
    rcases hp : s.pending with _ | ⟨f, rest⟩
    · simp
    · simp only [processAnalysisQueueStart]
      split
      · simp
      · split
        · simp
        · split <;> simp
  · intro s f rest hb hv hp
    simp [step, hp, processAnalysisQueueStart, hb, hv]

theorem backlog_waits_for_next_enqueue_witness :
    ((Ev.drainOk ("x") none) ≠ Ev.capPush) ∧
    (step (⟨[], [8, 9], true, true, true, [4], [4], [], (""), 0⟩ : QState)
      (.drainOk ("x") none)).started = [4] ∧
    (step (⟨[2], [8], false, false, true, [], [], [], (""), 0⟩ : QState)
      .capPush).started = [] ++ [2] :=
  ⟨by decide,
    backlog_waits_for_next_enqueue.1
      ⟨[], [8, 9], true, true, true, [4], [4], [], (""), 0⟩
      (.drainOk ("x") none) (by decide),
    backlog_waits_for_next_enqueue.2.2.2.2
      ⟨[2], [8], false, false, true, [], [], [], (""), 0⟩ 2 [] rfl rfl rfl⟩

/-- C7: when the analysis in flight fails, the error is not propagated to
the enqueuing caller (the drain settles with `none`), the session is torn
down and a reinitialization is counted, the busy flag is cleared, and —
once the reinitialization completes — a later capture proceeds (its frame
is accepted into `pending`). -/
theorem analysis_failure_contained :
    ∀ (s : QState) (f : ℕ) (m : String), s.inflight = [f] → s.vlm = true →
      (processAnalysisQueueFinish s (.err m)).2 = none ∧
      (processAnalysisQueueFinish s (.err m)).1.busy = false ∧
      (processAnalysisQueueFinish s (.err m)).1.analyzing = false ∧
      (processAnalysisQueueFinish s (.err m)).1.vlm = false ∧
      (processAnalysisQueueFinish s (.err m)).1.resets = s.resets + 1 ∧
      (processAnalysisQueueFinish s (.err m)).1.inflight = [] ∧
      (step (processAnalysisQueueFinish s (.err m)).1 .reinitDone).vlm
        = true ∧
      ∀ g : ℕ,
        (step (step (processAnalysisQueueFinish s (.err m)).1 .reinitDone)
          (.capStart g)).pending =
        (processAnalysisQueueFinish s (.err m)).1.pending ++ [g] := by
  intro s f m hinf hv
  simp [processAnalysisQueueFinish, hinf, hv, step]

/-! ## Model manager claim -/

theorem lookup_releaseModel (s : MMState) (n : String) :
    (releaseModel s n).models.lookup n = none := by
  unfold releaseModel
  cases hl : s.models.lookup n with
  | some lm => simpa using lookup_filter_out_key s.models n
  | none => simpa using hl

/-- C10: a `loadLM` for a name that is already in the map returns the
cached session and performs no initialization (the state, including the
`CactusLM.init` invocation count, is unchanged); `releaseModel` removes the
entry, so a subsequent `loadLM` for that name invokes `CactusLM.init`
again. -/
theorem loadLM_initializes_at_most_once :
    (∀ (env : MMEnv) (s : MMState) (n p : String) (lm : ℕ),
      s.models.lookup n = some lm → loadLM env s n p = (s, .ok lm))
    ∧ (∀ (s : MMState) (n : String),
        (releaseModel s n).models.lookup n = none)
    ∧ (∀ (env : MMEnv) (s : MMState) (n p : String),
        (loadLM env (releaseModel s n) n p).1.initCalls
          = (releaseModel s n).initCalls + 1) := by
  refine ⟨?_, lookup_releaseModel, ?_⟩
  · intro env s n p lm h
    simp [loadLM, h]
  · intro env s n p
    have hnone := lookup_releaseModel s n
    cases hinit : env.init (releaseModel s n).initCalls p with
    | error e => simp [loadLM, hnone, hinit]
    | ok o => cases o <;> simp [loadLM, hnone, hinit]

theorem loadLM_initializes_at_most_once_witness :
    ((⟨[(("main-lm"), 3)], 1, []⟩ : MMState).models.lookup ("main-lm")
      = some 3) ∧
    loadLM ⟨fun _ _ => .ok (some 9)⟩ ⟨[(("main-lm"), 3)], 1, []⟩
        ("main-lm") ("m.gguf") =
      (⟨[(("main-lm"), 3)], 1, []⟩, .ok 3) :=
  ⟨by decide,
    loadLM_initializes_at_most_once.1 ⟨fun _ _ => .ok (some 9)⟩
      ⟨[(("main-lm"), 3)], 1, []⟩ ("main-lm") ("m.gguf") 3 (by decide)⟩

/-! ## Download manager claims -/

/-- The `makeDirectoryAsync` branch of `ensureDirectoryExists` is
unreachable (a JavaScript object is always truthy), so the call never
changes the filesystem and never creates a directory. -/
theorem ensureDirectoryExists_eq (env : DLEnv) (fs : FS) (pth : String) :
    ensureDirectoryExists env fs pth = (fs, []) := by
  unfold ensureDirectoryExists
  cases h : getInfoA env fs (dirOfPath pth) <;> simp [h, jsTruthyObject]

theorem getLast_cons_concat {α : Type} (a x : α) (l : List α) :
    (a :: (l ++ [x])).getLast? = some x := by
  rw [← List.cons_append]
  exact List.getLast?_concat _

theorem prepare_eq (env : DLEnv) (f : String) :
    prepare env f =
      ⟨(getStoragePath env env.fs f).1, (getStoragePath env env.fs f).2,
        []⟩ := by
  unfold prepare
  rcases h : getStoragePath env env.fs f with ⟨path, fs1⟩
  simp [h, ensureDirectoryExists_eq]

/-- C4 counterexample: with a zero-byte file stored at the resolved path,
`getModelPath` returns the path — it does not report the artifact as
absent, because it consults only the `exists` field and never the size. -/
theorem getModelPath_zero_byte_present :
    getModelPath
        ⟨false, false, ("d/"), ⟨[(("d/a.gguf"), 0)]⟩, [], none,
          .ok (some ⟨200, 7⟩), []⟩ ("a.gguf") = some ("d/a.gguf") ∧
    (FS.info ⟨[(("d/a.gguf"), 0)]⟩ ("d/a.gguf")).size = 0 ∧
    getModelPath
        ⟨false, false, ("d/"), ⟨[(("d/a.gguf"), 0)]⟩, [], none,
          .ok (some ⟨200, 7⟩), []⟩ ("a.gguf") ≠ none := by decide

/-- C4 (amended): a zero-byte file at the target path does not
short-circuit `downloadModel` — the transfer is started (one network call)
— but `getModelPath` checks existence only, so it reports a zero-byte
artifact as present, returning its path. -/
theorem zero_byte_refetch_lookup_present :
    (∀ (env : DLEnv) (u f : String),
      getInfoA env (prepare env f).fs (prepare env f).path = .ok ⟨true, 0⟩ →
      (downloadModel env u f).networkCalls = 1)
    ∧ (∀ (env : DLEnv) (f : String) (i : FileInfo),
        getInfoA env (getStoragePath env env.fs f).2
            (getStoragePath env env.fs f).1 = .ok i →
        i.present = true →
        getModelPath env f = some (getStoragePath env env.fs f).1) := by
  constructor
  · intro env u f h
    simp only [downloadModel]
    rw [h]
    cases hdl : env.dl with
    | error e => simp [hdl]
    | ok o =>
        cases o with
        | none => simp [hdl]
        | some r => by_cases hs : r.status = 200 <;> simp [hdl, hs]
  · intro env f i h hpres
    unfold getModelPath
    rcases hgs : getStoragePath env env.fs f with ⟨path, fs1⟩
    rw [hgs] at h
    simp [h, hpres]

theorem zero_byte_refetch_lookup_present_witness :
    (getInfoA
        ⟨false, false, ("d/"), ⟨[(("d/a.gguf"), 0)]⟩, [], none,
          .ok (some ⟨200, 7⟩), []⟩
        (prepare
          ⟨false, false, ("d/"), ⟨[(("d/a.gguf"), 0)]⟩, [], none,
            .ok (some ⟨200, 7⟩), []⟩ ("a.gguf")).fs
        (prepare
          ⟨false, false, ("d/"), ⟨[(("d/a.gguf"), 0)]⟩, [], none,
            .ok (some ⟨200, 7⟩), []⟩ ("a.gguf")).path = .ok ⟨true, 0⟩) ∧
    (downloadModel
        ⟨false, false, ("d/"), ⟨[(("d/a.gguf"), 0)]⟩, [], none,
          .ok (some ⟨200, 7⟩), []⟩ ("u") ("a.gguf")).networkCalls = 1 :=
  ⟨by decide,
    zero_byte_refetch_lookup_present.1
      ⟨false, false, ("d/"), ⟨[(("d/a.gguf"), 0)]⟩, [], none,
        .ok (some ⟨200, 7⟩), []⟩ ("u") ("a.gguf") (by decide)⟩

/-- C5: every failure of `downloadModel` — a thrown filesystem error during
the presence check, a thrown network error from `downloadAsync`, an
undefined result, or a non-success status — ends with the filename's record
set to `{progress 0, isDownloading false, error message}` (the last update
written) and the same error propagated to the caller as a rejection; each
failure mode is listed explicitly, so no failure is silently swallowed. -/
theorem downloadModel_failure_record_and_rethrow :
    (∀ (env : DLEnv) (u f e : String),
      (downloadModel env u f).result = .error e →
      (downloadModel env u f).updates.getLast? =
        some ⟨.num 0, false, some e⟩)
    ∧ (∀ (env : DLEnv) (u f e : String),
        getInfoA env (prepare env f).fs (prepare env f).path = .error e →
        (downloadModel env u f).result = .error e)
    ∧ (∀ (env : DLEnv) (u f e : String) (i : FileInfo),
        getInfoA env (prepare env f).fs (prepare env f).path = .ok i →
        (i.present && decide (0 < i.size)) = false →
        env.dl = .error e →
        (downloadModel env u f).result = .error e)
    ∧ (∀ (env : DLEnv) (u f : String) (i : FileInfo) (r : DLRes),
        getInfoA env (prepare env f).fs (prepare env f).path = .ok i →
        (i.present && decide (0 < i.size)) = false →
        env.dl = .ok (some r) → r.status ≠ 200 →
        (downloadModel env u f).result = .error (statusMsg (some r.status)))
    ∧ (∀ (env : DLEnv) (u f : String) (i : FileInfo),
        getInfoA env (prepare env f).fs (prepare env f).path = .ok i →
        (i.present && decide (0 < i.size)) = false →
        env.dl = .ok none →
        (downloadModel env u f).result = .error (statusMsg none)) := by
  refine ⟨?_, ?_, ?_, ?_, ?_⟩
  · intro env u f e h
    simp only [downloadModel] at h ⊢
    set x := getInfoA env (prepare env f).fs (prepare env f).path with hx
    clear_value x
    cases x with
    | error e2 =>
        simp at h
        simp [h]
    | ok i =>
        set d := env.dl with hd
        clear_value d
        by_cases hp : (i.present && decide (0 < i.size)) = true
        · simp [hp] at h
        · simp only [Bool.not_eq_true] at hp
          simp only [hp, Bool.false_eq_true, if_false] at h ⊢
          cases d with
          | error e2 =>
              simp at h
              simp [h, getLast_cons_concat]
          | ok o =>
              cases o with
              | none =>
                  simp at h
                  simp [← h, getLast_cons_concat]
              | some r =>
                  by_cases hs : r.status = 200
                  · simp [hs] at h
                  · simp [hs] at h ⊢
                    simp [← h, getLast_cons_concat]
  · intro env u f e h
    simp only [downloadModel]
    rw [h]
  · intro env u f e i hinfo hp hdl
    simp only [downloadModel]
    rw [hinfo]
    simp [hp, hdl]
  · intro env u f i r hinfo hp hdl hs
    simp only [downloadModel]
    rw [hinfo]
    simp [hp, hdl, hs]
  · intro env u f i hinfo hp hdl
    simp only [downloadModel]
    rw [hinfo]
    simp [hp, hdl]

theorem downloadModel_failure_record_and_rethrow_witness :
    ((downloadModel
        ⟨false, false, ("d/"), ⟨[]⟩, [], none,
          .ok (some ⟨404, 0⟩), []⟩ ("u") ("a.gguf")).result =
      .error ("Download failed with status: 404")) ∧
    (downloadModel
        ⟨false, false, ("d/"), ⟨[]⟩, [], none,
          .ok (some ⟨404, 0⟩), []⟩ ("u") ("a.gguf")).updates.getLast? =
      some ⟨.num 0, false, some ("Download failed with status: 404")⟩ :=
  ⟨by decide,
    downloadModel_failure_record_and_rethrow.1
      ⟨false, false, ("d/"), ⟨[]⟩, [], none, .ok (some ⟨404, 0⟩), []⟩
      ("u") ("a.gguf") ("Download failed with status: 404") (by decide)⟩

theorem info_setFile_self (fs : FS) (p : String) (n : ℕ) :
    (fs.setFile p n).info p = ⟨true, n⟩ := by
  simp [FS.info, FS.setFile, List.lookup]

theorem info_setFile_ne (fs : FS) (p q : String) (n : ℕ) (h : q ≠ p) :
    (fs.setFile p n).info q = fs.info q := by
  simp [FS.info, FS.setFile, List.lookup, beq_eq_false_iff_ne.mpr h]

theorem info_mkdir_self (fs : FS) (p : String) :
    (fs.mkdir p).info p = ⟨true, 0⟩ := by
  simp [FS.info, FS.mkdir, List.lookup]

theorem info_mkdir_ne (fs : FS) (p q : String) (h : q ≠ p) :
    (fs.mkdir p).info q = fs.info q := by
  simp [FS.info, FS.mkdir, List.lookup, beq_eq_false_iff_ne.mpr h]

theorem string_append_left_cancel {a b c : String} (h : a ++ b = a ++ c) :
    b = c := by
  have hd := congrArg String.data h
  simp [String.data_append] at hd
  cases b; cases c
  subst hd
  rfl

/-- Normal form of `getStoragePath`: the scoped branch is taken exactly when
the platform is new Android, `useScopedStorage` does not throw, and the
existence check of the models directory does not throw; within it, the
models directory is used (and created when reported absent and
`makeDirectoryAsync` succeeds), any other outcome falling back to the
document directory. -/
theorem getStoragePath_eq (env : DLEnv) (fs : FS) (f : String) :
    getStoragePath env fs f =
      if env.newAndroid = true ∧ env.scopedThrows = false ∧
          env.infoErrors.lookup (env.documentDirectory ++ ("models/"))
            = none then
        (if (fs.info (env.documentDirectory ++ ("models/"))).present = true
          then (env.documentDirectory ++ ("models/") ++ f, fs)
          else
            match env.mkdirError with
            | some _ => (env.documentDirectory ++ f, fs)
            | none => (env.documentDirectory ++ ("models/") ++ f,
                fs.mkdir (env.documentDirectory ++ ("models/"))))
      else (env.documentDirectory ++ f, fs) := by
  by_cases hna : env.newAndroid = true
  · by_cases hsc : env.scopedThrows = true
    · simp [getStoragePath, hna, hsc]
    · rw [Bool.not_eq_true] at hsc
      cases hie : env.infoErrors.lookup
          (env.documentDirectory ++ ("models/")) with
      | some e =>
          simp [getStoragePath, useScopedStorage, getInfoA, hna, hsc, hie]
      | none =>
          by_cases hpm :
              (fs.info (env.documentDirectory ++ ("models/"))).present = true
          · simp [getStoragePath, useScopedStorage, getInfoA, hna, hsc, hie,
              hpm]
          · rw [Bool.not_eq_true] at hpm
            cases hmk : env.mkdirError with
            | some m =>
                simp [getStoragePath, useScopedStorage, getInfoA, hna, hsc,
                  hie, hpm, hmk]
            | none =>
                simp [getStoragePath, useScopedStorage, getInfoA, hna, hsc,
                  hie, hpm, hmk]
  · rw [Bool.not_eq_true] at hna
    simp [getStoragePath, hna]

/-- A successful `downloadModel` returns exactly the resolved path, implies
the presence check did not throw, and leaves the filesystem either
untouched (short-circuit) or with the downloaded file written at that
path. -/
theorem downloadModel_ok_cases (env : DLEnv) (u f p : String)
    (h : (downloadModel env u f).result = .ok p) :
    p = (prepare env f).path ∧
    env.infoErrors.lookup (prepare env f).path = none ∧
    ((downloadModel env u f).fs = (prepare env f).fs ∨
      ∃ n, (downloadModel env u f).fs
        = ((prepare env f).fs).setFile (prepare env f).path n) := by
  simp only [downloadModel] at h ⊢
  set x := getInfoA env (prepare env f).fs (prepare env f).path with hx
  clear_value x
  cases x with
  | error e2 => simp at h
  | ok i =>
      have hie : env.infoErrors.lookup (prepare env f).path = none := by
        unfold getInfoA at hx
        cases hl : env.infoErrors.lookup (prepare env f).path with
        | some e =>
            rw [hl] at hx
            simp at hx
        | none => rfl
      refine ⟨?_, hie, ?_⟩ <;>
      · by_cases hp : (i.present && decide (0 < i.size)) = true
        · simp [hp] at h ⊢
          all_goals first
            | exact h.symm
            | exact Or.inl rfl
        · simp only [Bool.not_eq_true] at hp
          simp only [hp, Bool.false_eq_true, if_false] at h ⊢
          set d := env.dl with hd
          clear_value d
          cases d with
          | error e2 => simp at h
          | ok o =>
              cases o with
              | none => simp at h
              | some r =>
                  by_cases hs : r.status = 200
                  · simp [hs] at h ⊢
                    all_goals first
                      | exact h.symm
                      | exact Or.inr ⟨r.written, rfl⟩
                  · simp [hs] at h

/-- When the presence check does not throw and the file at the resolved
path has positive size, `downloadModel` short-circuits: it returns the
path, writes the single record update `{progress 1, isDownloading false}`,
performs no network call, and leaves the filesystem unchanged. -/
theorem downloadModel_shortcircuit (env : DLEnv) (u f : String)
    (hie : env.infoErrors.lookup (prepare env f).path = none)
    (hsz : 0 < (((prepare env f).fs).info (prepare env f).path).size) :
    downloadModel env u f =
      ⟨.ok (prepare env f).path, [⟨.num 1, false, none⟩], 0,
        (prepare env f).fs, (prepare env f).created⟩ := by
  have hinfo : getInfoA env (prepare env f).fs (prepare env f).path
      = .ok (((prepare env f).fs).info (prepare env f).path) := by
    unfold getInfoA
    rw [hie]
  have hpres :
      (((prepare env f).fs).info (prepare env f).path).present = true := by
    unfold FS.info at hsz ⊢
    cases hl : ((prepare env f).fs).entries.lookup (prepare env f).path with
    | some n => simp [hl]
    | none =>
        rw [hl] at hsz
        simp at hsz
  simp only [downloadModel]
  rw [hinfo]
  simp [hpres, hsz]

/-- After a successful download for `f` (which can only have added the
models directory or the downloaded file itself to the filesystem), a second
resolution for `f` yields the same path, and the file — still of positive
size — sits at that path on the filesystem the second presence check
consults. The hypothesis `f ≠ "models/"` rules out the degenerate
"filename" that aliases the scoped models directory itself. -/
theorem second_resolution (env : DLEnv) (f p : String)
    (hWf : f ≠ ("models/"))
    (hp : p = (getStoragePath env env.fs f).1)
    (fs2 : FS)
    (hfsd : fs2 = (getStoragePath env env.fs f).2 ∨
      ∃ n, fs2 = ((getStoragePath env env.fs f).2).setFile
        (getStoragePath env env.fs f).1 n)
    (hsz : 0 < (fs2.info p).size) :
    (getStoragePath env fs2 f).1 = p ∧
    0 < (((getStoragePath env fs2 f).2).info p).size := by
  rw [← hp] at hfsd
  rw [getStoragePath_eq env env.fs f] at hp hfsd
  rw [getStoragePath_eq env fs2 f]
  by_cases hcond : env.newAndroid = true ∧ env.scopedThrows = false ∧
      env.infoErrors.lookup (env.documentDirectory ++ ("models/")) = none
  · rw [if_pos hcond] at hp hfsd ⊢
    by_cases hpm :
        ((env.fs).info (env.documentDirectory ++ ("models/"))).present = true
    · rw [if_pos hpm] at hp hfsd
      dsimp only at hp hfsd
      have hpm2 :
          ((fs2).info (env.documentDirectory ++ ("models/"))).present
            = true := by
        rcases hfsd with h | ⟨n, h⟩
        · rw [h]; exact hpm
        · rw [h]
          by_cases hq : (env.documentDirectory ++ ("models/")) = p
          · rw [hq, info_setFile_self]
          · rw [info_setFile_ne _ _ _ _ hq]; exact hpm
      rw [if_pos hpm2]
      exact ⟨hp.symm, hsz⟩
    · rw [if_neg hpm] at hp hfsd
      rw [Bool.not_eq_true] at hpm
      set mk := env.mkdirError with hmkeq
      clear_value mk
      cases mk with
      | some m =>
          dsimp only at hp hfsd
          have hpm2 : ¬ ((fs2).info
              (env.documentDirectory ++ ("models/"))).present = true := by
            rcases hfsd with h | ⟨n, h⟩
            · rw [h, hpm]; simp
            · rw [h]
              have hq : (env.documentDirectory ++ ("models/")) ≠ p := by
                intro hq
                rw [hp] at hq
                exact hWf (string_append_left_cancel hq).symm
              rw [info_setFile_ne _ _ _ _ hq, hpm]
              simp
          rw [if_neg hpm2]
          exact ⟨hp.symm, hsz⟩
      | none =>
          dsimp only at hp hfsd
          have hpm2 :
              ((fs2).info (env.documentDirectory ++ ("models/"))).present
                = true := by
            rcases hfsd with h | ⟨n, h⟩
            · rw [h, info_mkdir_self]
            · rw [h]
              by_cases hq : (env.documentDirectory ++ ("models/")) = p
              · rw [hq, info_setFile_self]
              · rw [info_setFile_ne _ _ _ _ hq, info_mkdir_self]
          rw [if_pos hpm2]
          exact ⟨hp.symm, hsz⟩
  · rw [if_neg hcond] at hp hfsd ⊢
    dsimp only at hp hfsd
    exact ⟨hp.symm, hsz⟩

/-- C1: when a `downloadModel(url, filename)` call succeeds leaving a file
of non-zero size at the returned path, a second call with the same
arguments performs no network transfer: it short-circuits on the
existence-and-size check, sets the filename's record to progress 1 with
`isDownloading` false, and returns the same path. (The filename is assumed
distinct from the literal string `"models/"`, which would alias the scoped
models directory rather than name a file.) -/
theorem downloadModel_idempotent_second_call :
    ∀ (env : DLEnv) (u f p : String),
      f ≠ ("models/") →
      (downloadModel env u f).result = .ok p →
      0 < (((downloadModel env u f).fs).info p).size →
      (downloadModel { env with fs := (downloadModel env u f).fs } u f
        ).result = .ok p ∧
      (downloadModel { env with fs := (downloadModel env u f).fs } u f
        ).networkCalls = 0 ∧
      (downloadModel { env with fs := (downloadModel env u f).fs } u f
        ).updates = [⟨.num 1, false, none⟩] := by
  intro env u f p hWf h1 h2
  obtain ⟨hp, hie, hfsd⟩ := downloadModel_ok_cases env u f p h1
  rw [prepare_eq] at hp hie hfsd
  dsimp only at hp hie hfsd
  have hsr := second_resolution env f p hWf hp
    ((downloadModel env u f).fs) hfsd h2
  have hprep2 : prepare { env with fs := (downloadModel env u f).fs } f
      = ⟨(getStoragePath env ((downloadModel env u f).fs) f).1,
          (getStoragePath env ((downloadModel env u f).fs) f).2, []⟩ := by
    rw [prepare_eq]
    rfl
  have hie2 : ({ env with fs := (downloadModel env u f).fs }
        : DLEnv).infoErrors.lookup
      (prepare { env with fs := (downloadModel env u f).fs } f).path
        = none := by
    rw [hprep2]
    dsimp only
    rw [hsr.1, hp]
    exact hie
  have hsz2 : 0 <
      (((prepare { env with fs := (downloadModel env u f).fs } f).fs).info
        (prepare { env with fs := (downloadModel env u f).fs } f).path
      ).size := by
    rw [hprep2]
    dsimp only
    rw [hsr.1]
    exact hsr.2
  have hsc := downloadModel_shortcircuit
    { env with fs := (downloadModel env u f).fs } u f hie2 hsz2
  rw [hsc, hprep2]
  dsimp only
  rw [hsr.1]
  exact ⟨rfl, rfl, rfl⟩

theorem downloadModel_idempotent_second_call_witness :
    (("a.gguf" : String) ≠ ("models/")) ∧
    ((downloadModel
        ⟨false, false, ("d/"), ⟨[]⟩, [], none, .ok (some ⟨200, 7⟩), []⟩
        ("u") ("a.gguf")).result = .ok ("d/a.gguf")) ∧
    (0 < (((downloadModel
        ⟨false, false, ("d/"), ⟨[]⟩, [], none, .ok (some ⟨200, 7⟩), []⟩
        ("u") ("a.gguf")).fs).info ("d/a.gguf")).size) ∧
    (downloadModel
        { (⟨false, false, ("d/"), ⟨[]⟩, [], none, .ok (some ⟨200, 7⟩), []⟩
            : DLEnv) with
          fs := (downloadModel
            ⟨false, false, ("d/"), ⟨[]⟩, [], none, .ok (some ⟨200, 7⟩), []⟩
            ("u") ("a.gguf")).fs } ("u") ("a.gguf")).networkCalls = 0 :=
  ⟨by decide, by decide, by decide,
    (downloadModel_idempotent_second_call
      ⟨false, false, ("d/"), ⟨[]⟩, [], none, .ok (some ⟨200, 7⟩), []⟩
      ("u") ("a.gguf") ("d/a.gguf") (by decide) (by decide)
      (by decide)).2.1⟩

/-- C8 (code bug, evaluated at the failing input): with the parent
directory `file:///doc/sub` absent and the resolution falling back to the
document directory, `ensureDirectoryExists` creates nothing and leaves the
filesystem unchanged — the source binds the `getInfoAsync` result object to
a variable named `exists` and tests `if (!exists)`, which is never true of
an object — while `downloadModel` still proceeds non-fatally past it (the
failure of the claimed directory creation raises nothing). -/
theorem ensureDirectoryExists_never_creates :
    (FS.info ⟨[(("file:///doc/"), 0)]⟩ ("file:///doc/sub")).present
      = false ∧
    ensureDirectoryExists
        ⟨false, false, ("file:///doc/"), ⟨[(("file:///doc/"), 0)]⟩, [],
          none, .ok (some ⟨200, 5⟩), []⟩
        ⟨[(("file:///doc/"), 0)]⟩ ("file:///doc/sub/a.gguf")
      = (⟨[(("file:///doc/"), 0)]⟩, []) ∧
    (downloadModel
        ⟨false, false, ("file:///doc/"), ⟨[(("file:///doc/"), 0)]⟩, [],
          none, .ok (some ⟨200, 5⟩), []⟩ ("u") ("sub/a.gguf")).result
      = .ok ("file:///doc/sub/a.gguf") ∧
    (downloadModel
        ⟨false, false, ("file:///doc/"), ⟨[(("file:///doc/"), 0)]⟩, [],
          none, .ok (some ⟨200, 5⟩), []⟩ ("u") ("sub/a.gguf")).created
      = [] :=
  ⟨by decide, ensureDirectoryExists_eq _ _ _, by decide, by decide⟩

/-- Boolean comparison on `JSNum` values: two ordinary numbers compare by
their rational values; any comparison involving NaN or an infinity is false
(as in JavaScript, where NaN compares false). -/
def JSNum.leb : JSNum → JSNum → Bool
  | .num a, .num b => decide (a ≤ b)
  | _, _ => false

theorem takeWhile_append_last {α : Type} (p : α → Bool) (t : α)
    (l : List α) (hl : ∀ x ∈ l, p x = true) (ht : p t = false) :
    (l ++ [t]).takeWhile p = l := by
  induction l with
  | nil => simp [List.takeWhile, ht]
  | cons hd tl ih =>
      have hhd := hl hd (by simp)
      simp [List.takeWhile, hhd, ih (fun x hx => hl x (by simp [hx]))]

/-- The chain of progress values produced by the callback updates of one
download, prefixed by the initial `progress 0` record, is non-decreasing
when every callback reports the same positive expected total and the bytes
written arrive in non-decreasing order. -/
theorem chain_progress (evs : List (ℕ × ℤ)) (T : ℤ)
    (hall : ∀ wt ∈ evs, wt.2 = T) (hT : 0 < T)
    (hchain : List.Chain' (· ≤ ·) (evs.map Prod.fst)) :
    List.Chain' (fun a b => JSNum.leb a b = true)
      (JSNum.num 0 :: evs.map (fun wt => jsDiv wt.1 wt.2)) := by
  have hTq : (0 : ℚ) < (T : ℚ) := by exact_mod_cast hT
  have hmap : evs.map (fun wt => jsDiv wt.1 wt.2)
      = evs.map (fun wt => JSNum.num ((wt.1 : ℚ) / (T : ℚ))) := by
    refine List.map_congr_left (fun wt hwt => ?_)
    have h2 := hall wt hwt
    simp [jsDiv, h2, hT.ne']
  rw [hmap]
  refine List.chain'_cons'.mpr ⟨?_, ?_⟩
  · intro b hb
    cases evs with
    | nil => simp at hb
    | cons wt tl =>
        simp at hb
        subst hb
        simp [JSNum.leb]
        positivity
  · rw [List.chain'_map] at hchain ⊢
    refine hchain.imp (fun a b hab => ?_)
    simp [JSNum.leb]
    exact (div_le_div_right hTq).mpr (by exact_mod_cast hab)

/-- C9: the record updates written for a filename are monotonically
non-decreasing in progress until the terminal update (the updates with
`isDownloading` true), given that the callbacks report a fixed positive
expected total and non-decreasing bytes written; and the reported progress
values never influence the download itself — replacing the whole callback
sequence (including NaN-producing callbacks with expected total 0) changes
neither the settled result nor the number of network calls. -/
theorem progress_monotone_nan_tolerated :
    (∀ (env : DLEnv) (u f : String) (T : ℤ),
      (∀ wt ∈ env.progressEvents, wt.2 = T) → 0 < T →
      List.Chain' (· ≤ ·) (env.progressEvents.map Prod.fst) →
      List.Chain' (fun a b => JSNum.leb a b = true)
        (((downloadModel env u f).updates.takeWhile
            (fun r => r.isDownloading)).map (fun r => r.progress)))
    ∧ (∀ (env : DLEnv) (u f : String) (evs2 : List (ℕ × ℤ)),
        (downloadModel { env with progressEvents := evs2 } u f).result
            = (downloadModel env u f).result ∧
        (downloadModel { env with progressEvents := evs2 } u f).networkCalls
            = (downloadModel env u f).networkCalls) := by
  constructor
  · intro env u f T hall hT hchain
    have hcb : ∀ x ∈ env.progressEvents.map
        (fun wt => (⟨jsDiv wt.1 wt.2, true, none⟩ : DownloadProgress)),
        x.isDownloading = true := by
      intro x hx
      simp at hx
      obtain ⟨a, b, _, hx⟩ := hx
      rw [← hx]
    have htk : ∀ t : DownloadProgress, t.isDownloading = false →
        ((⟨.num 0, true, none⟩ :: (env.progressEvents.map
            (fun wt => (⟨jsDiv wt.1 wt.2, true, none⟩ : DownloadProgress))
          ++ [t])).takeWhile (fun r => r.isDownloading)).map
            (fun r => r.progress)
        = JSNum.num 0 :: env.progressEvents.map (fun wt => jsDiv wt.1 wt.2)
        := by
      intro t ht
      rw [List.takeWhile_cons_of_pos (by simp)]
      rw [takeWhile_append_last _ _ _ hcb ht]
      simp
    simp only [downloadModel]
    set x := getInfoA env (prepare env f).fs (prepare env f).path with hx
    clear_value x
    cases x with
    | error e2 => simp [List.takeWhile]
    | ok i =>
        by_cases hp : (i.present && decide (0 < i.size)) = true
        · simp [hp, List.takeWhile]
        · simp only [Bool.not_eq_true] at hp
          simp only [hp, Bool.false_eq_true, if_false]
          cases hd : env.dl with
          | error e2 =>
              convert chain_progress env.progressEvents T hall hT hchain
                using 2
              exact htk ⟨.num 0, false, some e2⟩ rfl
          | ok o =>
              cases o with
              | none =>
                  convert chain_progress env.progressEvents T hall hT
                    hchain using 2
                  exact htk ⟨.num 0, false, some (statusMsg none)⟩ rfl
              | some r =>
                  dsimp only
                  by_cases hs : r.status = 200
                  · rw [if_pos hs]
                    convert chain_progress env.progressEvents T hall hT
                      hchain using 2
                    exact htk ⟨.num 1, false, none⟩ rfl
                  · rw [if_neg hs]
                    convert chain_progress env.progressEvents T hall hT
                      hchain using 2
                    exact htk ⟨.num 0, false,
                      some (statusMsg (some r.status))⟩ rfl
  · intro env u f evs2
    have h1 : prepare { env with progressEvents := evs2 } f
        = prepare env f := rfl
    have h2 : ∀ (fs : FS) (p : String),
        getInfoA { env with progressEvents := evs2 } fs p
          = getInfoA env fs p := fun _ _ => rfl
    have h3 : ({ env with progressEvents := evs2 } : DLEnv).dl
        = env.dl := rfl
    simp only [downloadModel, h1, h2, h3]
    set x := getInfoA env (prepare env f).fs (prepare env f).path with hx
    clear_value x
    cases x with
    | error e2 => exact ⟨rfl, rfl⟩
    | ok i =>
        by_cases hp : (i.present && decide (0 < i.size)) = true
        · simp [hp]
        · simp only [Bool.not_eq_true] at hp
          simp only [hp, Bool.false_eq_true, if_false]
          cases env.dl with
          | error e2 => exact ⟨rfl, rfl⟩
          | ok o =>
              cases o with
              | none => exact ⟨rfl, rfl⟩
              | some r =>
                  by_cases hs : r.status = 200 <;> simp [hs]

theorem progress_monotone_nan_tolerated_witness :
    (∀ wt ∈ ([((1 : ℕ), (2 : ℤ)), (2, 2)] : List (ℕ × ℤ)), wt.2 = 2) ∧
    ((0 : ℤ) < 2) ∧
    List.Chain' (fun a b => JSNum.leb a b = true)
      (((downloadModel
          ⟨false, false, ("d/"), ⟨[]⟩, [], none, .ok (some ⟨200, 7⟩),
            [(1, 2), (2, 2)]⟩ ("u") ("a.gguf")).updates.takeWhile
          (fun r => r.isDownloading)).map (fun r => r.progress)) :=
  ⟨by decide, by decide,
    progress_monotone_nan_tolerated.1
      ⟨false, false, ("d/"), ⟨[]⟩, [], none, .ok (some ⟨200, 7⟩),
        [(1, 2), (2, 2)]⟩ ("u") ("a.gguf") 2 (by decide) (by decide)
      (by simp [List.chain'_cons])⟩

theorem analysis_failure_contained_witness :
    ((⟨[], [], true, true, true, [5], [5], [], (""), 0⟩ : QState).inflight
      = [5]) ∧
    (processAnalysisQueueFinish
      (⟨[], [], true, true, true, [5], [5], [], (""), 0⟩ : QState)
      (.err ("boom"))).2 = none ∧
    (processAnalysisQueueFinish
      (⟨[], [], true, true, true, [5], [5], [], (""), 0⟩ : QState)
      (.err ("boom"))).1.resets = 0 + 1 :=
  ⟨rfl,
    (analysis_failure_contained
      ⟨[], [], true, true, true, [5], [5], [], (""), 0⟩ 5 ("boom") rfl
      rfl).1,
    (analysis_failure_contained
      ⟨[], [], true, true, true, [5], [5], [], (""), 0⟩ 5 ("boom") rfl
      rfl).2.2.2.2.1⟩
